import Mathlib

/-!
# Verification of the job-hunt-ai inbound-message ingestion pipeline

A shallow embedding, in Lean 4, of the core of the `job-hunt-ai` repository:
the Gmail message normalizer (`parseGmailMessage`), the mailbox fetch batch
(`fetchGmailMessages`), the listing-call error classification, the fallback
job-detail extraction (`fallbackExtraction` / `extractJobDetailsFromEmail`),
the ingestion merge performed by `handleScanMessages` (App.tsx), and the
message-link operation (`handleLinkMessage`).

Modelling conventions:
* JavaScript strings are Lean `String`s; character-level work is done on
  `List Char`.
* `receivedAt` is modelled as the epoch-millisecond integer underlying the
  ISO-8601 string the code stores (`new Date(ms).toISOString()` followed by
  `new Date(s).getTime()` is the identity on the valid range, and the code
  only ever compares the round-tripped value).
* A thrown JS exception is `none` / `Except.error`; the `try`/`catch`
  blocks of the source are explicit `match`es on those.
-/

/-- JS whitespace (the ASCII part relevant to `trim`, `\s`, and parseInt). -/
def isJsSpace (c : Char) : Bool :=
  c = ' ' || c = '\t' || c = '\n' || c = '\r' || c = '\x0b' || c = '\x0c'

/-- `String.prototype.trim` on the character list: drop leading and trailing
whitespace. -/
def jsTrimList (l : List Char) : List Char :=
  ((l.dropWhile isJsSpace).reverse.dropWhile isJsSpace).reverse

/-- `String.prototype.trim`. -/
def jsTrim (s : String) : String :=
  ⟨jsTrimList s.data⟩

/-- Substring test on character lists (`String.prototype.includes`). -/
def listContainsSub (l pat : List Char) : Bool :=
  pat.isPrefixOf l ||
    match l with
    | [] => false
    | _ :: t => listContainsSub t pat

/-- `String.prototype.includes`. -/
def strContainsSub (s pat : String) : Bool :=
  listContainsSub s.data pat.data

/-- ASCII lower-casing of a string (JS `toLowerCase` restricted to ASCII,
which is all the header names involved use). -/
def lowerStr (s : String) : String :=
  ⟨s.data.map Char.toLower⟩

/-- The canonical `InboundMessage` shape (src/types.ts).  `provider` is kept
as the literal tag string; `receivedAt` is the epoch-millisecond value (see
module comment); `linkedApplicationId` is the optional foreign key. -/
structure InboundMessage where
  id : String
  accountId : String
  provider : String
  senderName : String
  senderEmail : String
  subject : String
  snippet : String
  fullBody : String
  rawContent : String
  receivedAt : Int
  link : String
  isRead : Bool
  linkedApplicationId : Option String := none
deriving DecidableEq, Repr

/-- The descending-by-`receivedAt` order used by the merge's comparator
`(a, b) => new Date(b.receivedAt).getTime() - new Date(a.receivedAt).getTime()`:
`a` may stay before `b` exactly when the comparator is `≤ 0`. -/
def recvGe (a b : InboundMessage) : Prop :=
  b.receivedAt ≤ a.receivedAt

instance : DecidableRel recvGe := fun a b => by
  unfold recvGe; infer_instance

/-- Stable insertion of one message into a list sorted descending by
`receivedAt`. -/
def insertRecvDesc (m : InboundMessage) : List InboundMessage → List InboundMessage
  | [] => [m]
  | x :: xs => if recvGe m x then m :: x :: xs else x :: insertRecvDesc m xs

/-- `Array.prototype.sort` with the comparator above.  JS `sort` is required
to be stable and consistent with the comparator; since the comparator is a
total preorder, the stable sorted permutation is unique, and stable insertion
sort computes it. -/
def jsSortRecvDesc (l : List InboundMessage) : List InboundMessage :=
  l.foldr insertRecvDesc []

/-- The ingestion merge of `handleScanMessages` (App.tsx, `setMessages`
updater): build the set of existing ids, keep only newly fetched messages
whose id is not already present, put the survivors ahead of the existing
messages, and re-sort everything descending by `receivedAt`. -/
def mergeMessages (prev newRealMessages : List InboundMessage) : List InboundMessage :=
  let existingIds := prev.map (fun m => m.id)
  let uniqueNewReal := newRealMessages.filter (fun m => !existingIds.contains m.id)
  let final := uniqueNewReal ++ prev
  jsSortRecvDesc final

/-- `handleLinkMessage` (App.tsx): map over the collection, replacing the
message whose id matches with a copy whose `linkedApplicationId` is the given
application id.  The application collection is never consulted (the id is not
validated). -/
def handleLinkMessage (msgs : List InboundMessage) (messageId appId : String) :
    List InboundMessage :=
  msgs.map (fun m => if m.id = messageId then { m with linkedApplicationId := some appId } else m)

/-- A node of the Gmail MIME part tree (`payload.parts`, arbitrarily nested).
`bodyData` models `part.body?.data` (absent `body` and absent `data` behave
identically in the source).  An absent `parts` field is the empty list: in
`findPart` an empty array and an absent field both yield `null`. -/
inductive GmailPart where
  | node (mimeType : String) (bodyData : Option String) (subparts : List GmailPart)

def GmailPart.mimeType : GmailPart → String
  | .node m _ _ => m

def GmailPart.bodyData : GmailPart → Option String
  | .node _ d _ => d

def GmailPart.subparts : GmailPart → List GmailPart
  | .node _ _ s => s

/-- One entry of `payload.headers`. -/
structure GmailHeader where
  name : String
  value : String

/-- `data.payload`: the headers and the MIME part tree. -/
structure GmailPayload where
  headers : List GmailHeader
  parts : List GmailPart

/-- The raw Gmail message detail payload consumed by `parseGmailMessage`. -/
structure GmailData where
  id : String
  payload : GmailPayload
  snippet : String
  internalDate : String
  labelIds : List String

mutual

/-- `findPart` (gmailService.ts): depth-first search for the first part whose
`mimeType` matches; children of a part are searched before later siblings. -/
def findPart : List GmailPart → String → Option GmailPart
  | [], _ => none
  | p :: rest, mt =>
    if p.mimeType = mt then some p
    else
      match findPartChildren p mt with
      | some f => some f
      | none => findPart rest mt

def findPartChildren : GmailPart → String → Option GmailPart
  | .node _ _ sub, mt => findPart sub mt

end

/-- `getHeader` (gmailService.ts): case-insensitive header lookup, `''` when
the header is missing or its value is empty. -/
def getHeader (headers : List GmailHeader) (name : String) : String :=
  match headers.find? (fun h => lowerStr h.name = lowerStr name) with
  | some h => h.value
  | none => ""

/-- The leftmost match of the sender regex `/(.*)<(.*)>/` with JS greedy
semantics, returning the two capture groups.  Unanchored with a leading
greedy `.*`, the match (when the string contains a `<` followed later by a
`>`) takes group 1 up to the last `<` that still has a `>` after it, and
group 2 up to the last `>` of the string. -/
def fromRegexMatch (s : String) : Option (String × String) :=
  let cs := s.data
  let n := cs.length
  let gtIdxs := (List.range n).filter (fun i => cs.getD i ' ' = '>')
  match gtIdxs.getLast? with
  | none => none
  | some lastGt =>
    let ltIdxs := (List.range lastGt).filter (fun i => cs.getD i ' ' = '<')
    match ltIdxs.getLast? with
    | none => none
    | some lastLt =>
      some (⟨cs.take lastLt⟩, ⟨(cs.drop (lastLt + 1)).take (lastGt - (lastLt + 1))⟩)

/-- `replace(/^"|"$/g, '')`: strip one leading and one trailing double
quote. -/
def stripOuterQuotes (s : String) : String :=
  let l := s.data
  let l := if l.head? = some '"' then l.drop 1 else l
  let l := if l.getLast? = some '"' then l.dropLast else l
  ⟨l⟩

/-- The sender-parsing block of `parseGmailMessage`: both fields default to
the raw `From` value; when the regex matches, the name is group 1 trimmed and
unquoted, and the email is group 2 trimmed. -/
def parseSender (from_ : String) : String × String :=
  match fromRegexMatch from_ with
  | some (g1, g2) => (stripOuterQuotes (jsTrim g1), jsTrim g2)
  | none => (from_, from_)

/-- Value of one base64 alphabet character. -/
def b64Val (c : Char) : Option Nat :=
  if 'A' ≤ c ∧ c ≤ 'Z' then some (c.toNat - 65)
  else if 'a' ≤ c ∧ c ≤ 'z' then some (c.toNat - 71)
  else if '0' ≤ c ∧ c ≤ '9' then some (c.toNat + 4)
  else if c = '+' then some 62
  else if c = '/' then some 63
  else none

/-- Decode a run of 6-bit values into bytes (forgiving base64: a final
chunk of 2 or 3 values contributes 1 or 2 bytes, leftover bits discarded;
a final chunk of 1 value is impossible for accepted input). -/
def b64Bytes : List Nat → Option (List Nat)
  | [] => some []
  | [_] => none
  | [a, b] => some [(a * 4 + b / 16) % 256]
  | [a, b, c] => some [(a * 4 + b / 16) % 256, (b % 16) * 16 + c / 4]
  | a :: b :: c :: d :: rest =>
    match b64Bytes rest with
    | some bs =>
      some (((a * 4 + b / 16) % 256) :: ((b % 16) * 16 + c / 4) :: ((c % 4) * 64 + d) :: bs)
    | none => none

/-- `atob` (forgiving-base64 decode): strip ASCII whitespace, strip up to two
trailing `=` when the length is a multiple of four, reject a remainder of one,
reject characters outside the alphabet, and emit one character per decoded
byte.  `none` is the thrown `InvalidCharacterError`. -/
def atob (s : String) : Option String :=
  let cs := s.data.filter (fun c => ¬ (c = '\t' ∨ c = '\n' ∨ c = '\x0c' ∨ c = '\r' ∨ c = ' '))
  let cs :=
    if cs.length % 4 = 0 then
      if cs.getLast? = some '=' then
        let cs := cs.dropLast
        if cs.getLast? = some '=' then cs.dropLast else cs
      else cs
    else cs
  if cs.length % 4 = 1 then none
  else
    let vals := cs.map b64Val
    if vals.contains none then none
    else
      match b64Bytes (vals.reduceOption) with
      | some bytes => some ⟨bytes.map (fun b => Char.ofNat b)⟩
      | none => none

/-- The body decode of `parseGmailMessage`: map every `-` to `+` and every
`_` to `/` (the two global replaces), then `atob`. -/
def b64UrlDecode (s : String) : Option String :=
  atob ⟨s.data.map (fun c => if c = '-' then '+' else if c = '_' then '/' else c)⟩

/-- `parseInt(s)` in radix 10 restricted to what `internalDate` can hold:
skip leading whitespace, optional sign, then the maximal run of leading
digits; `none` is `NaN`. -/
def jsParseInt (s : String) : Option Int :=
  let l := s.data.dropWhile isJsSpace
  let (sign, l) : Int × List Char :=
    match l with
    | '-' :: t => (-1, t)
    | '+' :: t => (1, t)
    | _ => (1, l)
  let digits := l.takeWhile Char.isDigit
  if digits = [] then none
  else some (sign * (digits.foldl (fun acc c => acc * 10 + (c.toNat - 48)) 0 : Nat))

/-- `new Date(ms).toISOString()` throws outside ±8.64e15 milliseconds. -/
def isoRangeOk (ms : Int) : Bool :=
  ms.natAbs ≤ 8640000000000000

mutual

/-- A serialization of the part tree standing in for the
`JSON.stringify(data.payload, null, 2)` diagnostic string. -/
def stringifyPart : GmailPart → String
  | .node mt bd sub =>
    "(mimeType:" ++ mt ++ ",body:" ++ (match bd with | some d => d | none => "-") ++
      ",parts:[" ++ stringifyPartList sub ++ "])"

def stringifyPartList : List GmailPart → String
  | [] => ""
  | p :: ps => stringifyPart p ++ "," ++ stringifyPartList ps

end

/-- Serialization of the whole payload (`rawContent`). -/
def stringifyPayload (p : GmailPayload) : String :=
  "(headers:[" ++
    String.intercalate "," (p.headers.map (fun h => h.name ++ ":" ++ h.value)) ++
    "],parts:[" ++ stringifyPartList p.parts ++ "])"

/-- The body-selection block of `parseGmailMessage`: `body` defaults to the
snippet; the HTML part is preferred over the plain-text part; when the chosen
part carries body data it is base64url-decoded.  The source's guard is
`bodyPart && bodyPart.body && bodyPart.body.data`, and `data` being the empty
string is falsy in JS, so only a non-empty data string is decoded; an absent
or empty data string keeps the snippet.  `none` is a thrown decode error. -/
def selectBody (data : GmailData) : Option String :=
  let htmlPart := findPart data.payload.parts "text/html"
  let textPart := findPart data.payload.parts "text/plain"
  let bodyPart := htmlPart <|> textPart
  match bodyPart with
  | some p =>
    match p.bodyData with
    | some d =>
      if d = "" then some data.snippet
      else
        match b64UrlDecode d with
        | some decoded => some decoded
        | none => none
    | none => some data.snippet
  | none => some data.snippet

/-- `parseGmailMessage` (gmailService.ts): header lookup, sender parsing,
body selection (HTML part, else plain-text part, else snippet), base64url
decode, timestamp conversion, read flag.  `none` is the `catch` branch (the
decode or the `toISOString` conversion threw). -/
def parseGmailMessage (data : GmailData) (accountId : String) : Option InboundMessage :=
  let subject := getHeader data.payload.headers "Subject"
  let from_ := getHeader data.payload.headers "From"
  let (senderName, senderEmail) := parseSender from_
  let rawContent := stringifyPayload data.payload
  match selectBody data with
  | none => none
  | some body =>
    match jsParseInt data.internalDate with
    | none => none
    | some ms =>
      if isoRangeOk ms then
        some
          { id := data.id
            accountId := accountId
            provider := "Gmail"
            senderName := if senderName = "" then "Unknown" else senderName
            senderEmail := senderEmail
            subject := if subject = "" then "(No Subject)" else subject
            snippet := data.snippet
            fullBody := body
            rawContent := rawContent
            receivedAt := ms
            link := "https://mail.google.com/mail/u/0/#inbox/" ++ data.id
            isRead := !data.labelIds.contains "UNREAD" }
      else none

/-- Outcome of the network activity of one `fetchDetails` task: the detail
fetch (or its JSON decode) threw, returned a non-OK response, or returned a
payload. -/
inductive DetailOutcome where
  | throws
  | notOk
  | okPayload (data : GmailData)

/-- The `try` block of `fetchDetails` (gmailService.ts): on a payload, parse
it and return the result when non-null; otherwise fall through to `null`.
`Except.error` is an uncaught exception inside the block. -/
def fetchDetailAttempt (accountId : String) : DetailOutcome → Except Unit (Option InboundMessage)
  | .throws => .error ()
  | .notOk => .ok none
  | .okPayload data =>
    match parseGmailMessage data accountId with
    | some parsed => .ok (some parsed)
    | none => .ok none

/-- `fetchDetails`: the `try` block with its `catch` — an exception becomes
`null`, so the task is total. -/
def fetchDetails (accountId : String) (o : DetailOutcome) : Option InboundMessage :=
  match fetchDetailAttempt accountId o with
  | .ok v => v
  | .error _ => none

/-- The detail-fetch stage of `fetchGmailMessages`:
`Promise.all(listData.messages.map(fetchDetails))` followed by
`results.filter(m => m !== null)`.  One `DetailOutcome` per candidate id. -/
def fetchGmailDetailBatch (accountId : String) (outcomes : List DetailOutcome) :
    List InboundMessage :=
  (outcomes.map (fetchDetails accountId)).filterMap id

/-- The non-OK branch of the listing call in `fetchGmailMessages`: the thrown
error message as a function of the HTTP status and the provider error message
(`errorData.error?.message || JSON.stringify(errorData)`).  The source tests
status 403 with the two message probes first, then status 401, then throws
the generic failure. -/
def classifyListError (status : Nat) (message : String) : String :=
  if status = 403 ∧ (strContainsSub message "Insufficient Permission" ∨ strContainsSub message "scope") then
    "Gmail permission not granted. Please re-connect your Google account."
  else if status = 403 ∧ (strContainsSub message "not enabled" ∨ strContainsSub message "project") then
    "Gmail API is not enabled for this project."
  else if status = 401 then
    "Access token expired. Please re-connect."
  else
    "Failed to list messages: " ++ message

/-- The application pipeline status enum (src/types.ts). -/
inductive ApplicationStatus where
  | SUBMITTED
  | RECRUITER_SCREEN
  | TECH_SCREEN
  | HIRING_MANAGER
  | ONSITE
  | OFFER
  | REJECTED
  | WITHDRAWN
deriving DecidableEq, Repr

/-- `ExtractedJobDetails` (geminiService.ts). -/
structure ExtractedJobDetails where
  companyName : String
  roleTitle : String
  jobLink : Option String := none
  nextInterviewDate : Option String := none
  status : ApplicationStatus
deriving DecidableEq, Repr

/-- Characters of the company capture class `[a-zA-Z0-9\s\.]`. -/
def isCompanyClassChar (c : Char) : Bool :=
  (('a' ≤ c ∧ c ≤ 'z') ∨ ('A' ≤ c ∧ 'Z' ≥ c) ∨ c.isDigit ∨ isJsSpace c ∨ c = '.')

/-- After one of the literals `at`/`for`/`to`: match `\s+` followed by the
capture `([A-Z][a-zA-Z0-9\s\.]+)`.  Since whitespace is disjoint from the
upper-case class, only the maximal whitespace run can precede a match. -/
def companyAfterKw (l : List Char) : Option (List Char) :=
  let ws := l.takeWhile isJsSpace
  if ws = [] then none
  else
    match l.drop ws.length with
    | [] => none
    | c :: rest =>
      if 'A' ≤ c ∧ c ≤ 'Z' then
        let run := rest.takeWhile isCompanyClassChar
        if run = [] then none else some (c :: run)
      else none

/-- One attempt of the company regex at a fixed position: the alternatives
`at`, `for`, `to` have pairwise distinct first characters, so at most one can
match here. -/
def companyTryAt (l : List Char) : Option (List Char) :=
  if ['a', 't'].isPrefixOf l then companyAfterKw (l.drop 2)
  else if ['f', 'o', 'r'].isPrefixOf l then companyAfterKw (l.drop 3)
  else if ['t', 'o'].isPrefixOf l then companyAfterKw (l.drop 2)
  else none

/-- Leftmost-match scan for the company regex. -/
def companyScan : List Char → Option (List Char)
  | [] => none
  | c :: rest =>
    match companyTryAt (c :: rest) with
    | some g => some g
    | none => companyScan rest

/-- `subject.match` with the company pattern — the preposition `at`, `for`
or `to`, whitespace, then a capitalized phrase — returning capture group 1. -/
def companyRegexMatch (subject : String) : Option String :=
  (companyScan subject.data).map (fun g => (⟨g⟩ : String))

/-- The characters the subject is split on for the no-preposition company
heuristic: the class holds `-`, `|` and the three characters of the
mojibake en-dash literal in the source. -/
def companySplitSeps : List Char := ['-', '|', 'â', '€', '“']

/-- `String.prototype.split` on a single-character class. -/
def splitOnSeps (l : List Char) (seps : List Char) : List (List Char) :=
  match l with
  | [] => [[]]
  | c :: rest =>
    let tailSplit := splitOnSeps rest seps
    if seps.contains c then [] :: tailSplit
    else
      match tailSplit with
      | [] => [[c]]
      | s :: ss => (c :: s) :: ss

/-- Characters before the first occurrence of a pattern
(`s.split(pat)[0]` for a plain-string separator). -/
def takeBeforeSub : List Char → List Char → List Char
  | [], _ => []
  | c :: rest, pat =>
    if pat.isPrefixOf (c :: rest) then []
    else c :: takeBeforeSub rest pat

/-- The `company` variable of `fallbackExtraction` after its `if`/`else`:
the regex capture (trimmed, cut at a contained `" - "`), else the trimmed
final dash/pipe segment when the subject splits and that segment is shorter
than 30 characters, else empty. -/
def fallbackCompany (subject : String) : String :=
  match companyRegexMatch subject with
  | some g =>
    let c := jsTrim g
    if strContainsSub c " - " then ⟨takeBeforeSub c.data " - ".data⟩ else c
  | none =>
    let segs := splitOnSeps subject.data companySplitSeps
    if segs.length > 1 then
      let candidate := jsTrimList (segs.getLastD [])
      if candidate.length < 30 then ⟨candidate⟩ else ""
    else ""

/-- Case-insensitive literal-prefix test (the `i` flag on the role regex). -/
def ciPrefix (pat : String) (l : List Char) : Bool :=
  (pat.data.map Char.toLower).isPrefixOf (l.map Char.toLower)

/-- A character the role capture class `[^\n\.]` accepts. -/
def isRoleClassChar (c : Char) : Bool :=
  ¬ (c = '\n' ∨ c = '.')

/-- The backtracking of `\s*` before `([^\n\.]+)`: greedily prefer consuming
`k` whitespace characters, retrying with one fewer until the capture class
can take at least one character. -/
def roleBacktrack : Nat → List Char → Option (List Char)
  | k, l =>
    let run := (l.drop k).takeWhile isRoleClassChar
    if run = [] then
      match k with
      | 0 => none
      | k' + 1 => roleBacktrack k' l
    else some run

/-- After one of the labels: match `:`, `\s*`, then the capture
`([^\n\.]+)`. -/
def roleAfterKw (l : List Char) : Option (List Char) :=
  match l with
  | ':' :: rest => roleBacktrack ((rest.takeWhile isJsSpace).length) rest
  | _ => none

/-- One attempt of the role regex at a fixed position; the alternatives
`Role`, `Position`, `Opening` (case-insensitive) have pairwise distinct
first letters. -/
def roleTryAt (l : List Char) : Option (List Char) :=
  if ciPrefix "role" l then roleAfterKw (l.drop 4)
  else if ciPrefix "position" l then roleAfterKw (l.drop 8)
  else if ciPrefix "opening" l then roleAfterKw (l.drop 7)
  else none

/-- Leftmost-match scan for the role regex. -/
def roleScan : List Char → Option (List Char)
  | [] => none
  | c :: rest =>
    match roleTryAt (c :: rest) with
    | some g => some g
    | none => roleScan rest

/-- `emailText.match` with the labeled-field role pattern (`Role:`,
`Position:` or `Opening:` up to the next period or newline), case
insensitive, returning capture group 1. -/
def roleRegexMatch (text : String) : Option String :=
  (roleScan text.data).map (fun g => (⟨g⟩ : String))

/-- Whether `\s(at|for)\s` matches at the head of the list. -/
def atForSplitHere (l : List Char) : Bool :=
  match l with
  | c :: rest =>
    isJsSpace c ∧
      ((['a', 't'].isPrefixOf rest ∧ (rest.drop 2).head?.any isJsSpace) ∨
       (['f', 'o', 'r'].isPrefixOf rest ∧ (rest.drop 3).head?.any isJsSpace))
  | [] => false

/-- `subject.split` on whitespace-delimited `at`/`for`, first element: the
characters before the leftmost match (the whole subject when there is
none). -/
def beforeAtForSplit : List Char → List Char
  | [] => []
  | c :: rest =>
    if atForSplitHere (c :: rest) then []
    else c :: beforeAtForSplit rest

/-- The keyword list of the naive role heuristic. -/
def commonRoles : List String :=
  ["Engineer", "Developer", "Designer", "Manager", "Product", "Analyst"]

/-- The `role` variable of `fallbackExtraction` after its `if`/`else`: the
labeled-field capture (trimmed), else — when the subject contains a common
role keyword — the part of the subject before the first whitespace-delimited
`at`/`for`, else empty. -/
def fallbackRole (emailText subject : String) : String :=
  match roleRegexMatch emailText with
  | some g => jsTrim g
  | none =>
    if commonRoles.any (fun r => strContainsSub subject r) then
      ⟨beforeAtForSplit subject.data⟩
    else ""

/-- `fallbackExtraction` (geminiService.ts): regex company and role
heuristics with `Unknown Company` / `Unknown Role` defaults, empty job link,
and the constant `Recruiter Screen` status. -/
def fallbackExtraction (emailText subject : String) : ExtractedJobDetails :=
  let company := fallbackCompany subject
  let role := fallbackRole emailText subject
  { companyName := if company = "" then "Unknown Company" else company
    roleTitle := if role = "" then "Unknown Role" else role
    status := ApplicationStatus.RECRUITER_SCREEN
    jobLink := some "" }

/-- `extractJobDetailsFromEmail` (geminiService.ts): with no API key
configured (`!process.env.API_KEY`), use the regex fallback without any
network call; otherwise run the AI path — abstracted here as an oracle whose
`none` is any failure of the `try` block — and fall back on failure. -/
def extractJobDetailsFromEmail (apiKey : String)
    (aiPath : String → String → Option ExtractedJobDetails)
    (emailText subject : String) : ExtractedJobDetails :=
  if apiKey = "" then fallbackExtraction emailText subject
  else
    match aiPath emailText subject with
    | some r => r
    | none => fallbackExtraction emailText subject

theorem recvGe_trans {a b c : InboundMessage} (h1 : recvGe a b) (h2 : recvGe b c) :
    recvGe a c :=
  le_trans h2 h1

theorem insertRecvDesc_perm (m : InboundMessage) (l : List InboundMessage) :
    (insertRecvDesc m l).Perm (m :: l) := by
  induction l with
  | nil => exact List.Perm.refl _
  | cons x xs ih =>
    simp only [insertRecvDesc]
    split
    · exact List.Perm.refl _
    · exact (ih.cons x).trans (List.Perm.swap m x xs)

theorem jsSortRecvDesc_perm (l : List InboundMessage) : (jsSortRecvDesc l).Perm l := by
  induction l with
  | nil => exact List.Perm.refl _
  | cons x xs ih => exact (insertRecvDesc_perm x (jsSortRecvDesc xs)).trans (ih.cons x)

theorem insertRecvDesc_pairwise {m : InboundMessage} {l : List InboundMessage}
    (hl : l.Pairwise recvGe) : (insertRecvDesc m l).Pairwise recvGe := by
  induction l with
  | nil => simp [insertRecvDesc]
  | cons x xs ih =>
    rcases List.pairwise_cons.mp hl with ⟨hx, hxs⟩
    simp only [insertRecvDesc]
    split
    case isTrue h =>
      refine List.pairwise_cons.mpr ⟨?_, hl⟩
      intro y hy
      rcases List.mem_cons.mp hy with rfl | hy'
      · exact h
      · exact recvGe_trans h (hx y hy')
    case isFalse h =>
      refine List.pairwise_cons.mpr ⟨?_, ih hxs⟩
      intro y hy
      have hy2 : y ∈ m :: xs := ((insertRecvDesc_perm m xs).mem_iff).mp hy
      rcases List.mem_cons.mp hy2 with rfl | hy'
      · exact le_of_lt (lt_of_not_le h)
      · exact hx y hy'

theorem jsSortRecvDesc_sorted (l : List InboundMessage) :
    (jsSortRecvDesc l).Pairwise recvGe := by
  induction l with
  | nil => simp [jsSortRecvDesc]
  | cons x xs ih => exact insertRecvDesc_pairwise ih

theorem jsSortRecvDesc_of_pairwise {l : List InboundMessage} (h : l.Pairwise recvGe) :
    jsSortRecvDesc l = l := by
  induction l with
  | nil => rfl
  | cons x xs ih =>
    rcases List.pairwise_cons.mp h with ⟨hx, hxs⟩
    show insertRecvDesc x (jsSortRecvDesc xs) = x :: xs
    rw [ih hxs]
    cases xs with
    | nil => rfl
    | cons y ys => simp [insertRecvDesc, hx y (List.mem_cons_self y ys)]

theorem mergeMessages_mem_id (A B : List InboundMessage) (m : InboundMessage) (hm : m ∈ B) :
    m.id ∈ (mergeMessages A B).map (fun x => x.id) := by
  have hperm :
      (mergeMessages A B).Perm
        (B.filter (fun m => !(A.map (fun x => x.id)).contains m.id) ++ A) :=
    jsSortRecvDesc_perm _
  rw [List.mem_map]
  by_cases hid : m.id ∈ A.map (fun x => x.id)
  · rcases List.mem_map.mp hid with ⟨a, ha, hai⟩
    exact ⟨a, (hperm.mem_iff).mpr (List.mem_append_right _ ha), hai⟩
  · refine ⟨m, (hperm.mem_iff).mpr (List.mem_append_left _ ?_), rfl⟩
    refine List.mem_filter.mpr ⟨hm, ?_⟩
    simp only [Bool.not_eq_true', ← Bool.not_eq_true, List.elem_iff]
    simpa using hid

/-- C1.  The ingestion merge is idempotent: merging the same fetched batch a
second time leaves the collection produced by the first merge unchanged —
every id of the batch is already present, so the dedup filter drops the whole
batch, and re-sorting an already sorted collection is the identity. -/
theorem merge_idempotent (A B : List InboundMessage) :
    mergeMessages (mergeMessages A B) B = mergeMessages A B := by
  have hfilter :
      B.filter (fun m => !((mergeMessages A B).map (fun x => x.id)).contains m.id) = [] := by
    rw [List.filter_eq_nil_iff]
    intro m hm
    simp only [Bool.not_eq_true', Bool.not_eq_false, List.elem_iff]
    exact mergeMessages_mem_id A B m hm
  show jsSortRecvDesc
      (B.filter (fun m => !((mergeMessages A B).map (fun x => x.id)).contains m.id) ++
        mergeMessages A B) = mergeMessages A B
  rw [hfilter, List.nil_append]
  exact jsSortRecvDesc_of_pairwise (jsSortRecvDesc_sorted _)

/-- C2.  The merge result is, up to the final descending re-sort, exactly the
existing messages (unchanged, all fields kept) together with those newly
fetched messages whose id is not already present (a new message whose id
already occurs is dropped), and the result is sorted descending by
`receivedAt`. -/
theorem merge_dedup_sorted (prev news : List InboundMessage) :
    (mergeMessages prev news).Perm
        (news.filter (fun m => !(prev.map (fun x => x.id)).contains m.id) ++ prev) ∧
      (mergeMessages prev news).Pairwise recvGe :=
  ⟨jsSortRecvDesc_perm _, jsSortRecvDesc_sorted _⟩

/-- C9.  Frame property of `handleLinkMessage`: the collection keeps its
length, and position by position the message whose id matches gets exactly
`linkedApplicationId := appId` (every other field kept via the record
update), while every other message is returned unchanged.  The application
collection is not an input of the operation, so no validation of `appId` can
occur. -/
theorem link_message_frame (msgs : List InboundMessage) (messageId appId : String) :
    (handleLinkMessage msgs messageId appId).length = msgs.length ∧
      ∀ i : Nat,
        (handleLinkMessage msgs messageId appId)[i]? =
          (msgs[i]?).map (fun m =>
            if m.id = messageId then { m with linkedApplicationId := some appId } else m) := by
  refine ⟨List.length_map _ _, fun i => ?_⟩
  simp [handleLinkMessage]

/-- C4.  Session-error classification of the listing call: status 401 yields
the expired-token message; status 403 with a provider message mentioning
`Insufficient Permission` or `scope` yields the permission-not-granted
message; status 403 with a provider message mentioning `not enabled` or
`project` (and not the scope probes, which the source tests first) yields the
API-not-enabled message; the three are pairwise distinct; and any other
non-OK status yields the generic failure carrying the provider's message. -/
theorem session_error_classification (m₁ m₂ m₃ mg : String) (s : Nat)
    (h₂ : strContainsSub m₂ "Insufficient Permission" = true ∨ strContainsSub m₂ "scope" = true)
    (h₃ : strContainsSub m₃ "not enabled" = true ∨ strContainsSub m₃ "project" = true)
    (h₃' : ¬ (strContainsSub m₃ "Insufficient Permission" = true ∨ strContainsSub m₃ "scope" = true))
    (hs1 : s ≠ 401) (hs3 : s ≠ 403) :
    classifyListError 401 m₁ = "Access token expired. Please re-connect." ∧
      classifyListError 403 m₂ =
        "Gmail permission not granted. Please re-connect your Google account." ∧
      classifyListError 403 m₃ = "Gmail API is not enabled for this project." ∧
      classifyListError 401 m₁ ≠ classifyListError 403 m₂ ∧
      classifyListError 403 m₂ ≠ classifyListError 403 m₃ ∧
      classifyListError 401 m₁ ≠ classifyListError 403 m₃ ∧
      classifyListError s mg = "Failed to list messages: " ++ mg := by
  have e1 : classifyListError 401 m₁ = "Access token expired. Please re-connect." := by
    simp [classifyListError]
  have e2 : classifyListError 403 m₂ =
      "Gmail permission not granted. Please re-connect your Google account." := by
    simp [classifyListError, h₂]
  have e3 : classifyListError 403 m₃ = "Gmail API is not enabled for this project." := by
    simp only [not_or, Bool.not_eq_true] at h₃'
    simp [classifyListError, h₃, h₃'.1, h₃'.2]
  refine ⟨e1, e2, e3, ?_, ?_, ?_, ?_⟩
  · rw [e1, e2]; decide
  · rw [e2, e3]; decide
  · rw [e1, e3]; decide
  · simp [classifyListError, hs1, hs3]

/-- Witness for C4 at status 500 and concrete provider messages. -/
theorem session_error_classification_witness :
    classifyListError 401 "x" = "Access token expired. Please re-connect." ∧
      classifyListError 403 "request had insufficient authentication scope" =
        "Gmail permission not granted. Please re-connect your Google account." ∧
      classifyListError 403 "Gmail API has not been used in project 42" =
        "Gmail API is not enabled for this project." ∧
      classifyListError 401 "x" ≠ classifyListError 403 "request had insufficient authentication scope" ∧
      classifyListError 403 "request had insufficient authentication scope" ≠
        classifyListError 403 "Gmail API has not been used in project 42" ∧
      classifyListError 401 "x" ≠ classifyListError 403 "Gmail API has not been used in project 42" ∧
      classifyListError 500 "boom" = "Failed to list messages: " ++ "boom" :=
  session_error_classification "x" "request had insufficient authentication scope"
    "Gmail API has not been used in project 42" "boom" 500
    (by decide) (by decide) (by decide) (by decide) (by decide)

/-- C7.  With no AI credential configured, extraction takes the fallback
path deterministically: on subject `Interview at Acme Corp` the company
heuristic captures `Acme Corp` for every body text, the status is
`Recruiter Screen`; and the fallback path returns status `Recruiter Screen`
for every subject and body. -/
theorem fallback_extraction_deterministic :
    (∀ (aiPath : String → String → Option ExtractedJobDetails) (body : String),
        (extractJobDetailsFromEmail "" aiPath body "Interview at Acme Corp").companyName =
            "Acme Corp" ∧
          (extractJobDetailsFromEmail "" aiPath body "Interview at Acme Corp").status =
            ApplicationStatus.RECRUITER_SCREEN) ∧
      ∀ emailText subject : String,
        (fallbackExtraction emailText subject).status = ApplicationStatus.RECRUITER_SCREEN := by
  constructor
  · intro aiPath body
    have hc : fallbackCompany "Interview at Acme Corp" = "Acme Corp" := by decide
    constructor
    · show (fallbackExtraction body "Interview at Acme Corp").companyName = "Acme Corp"
      simp [fallbackExtraction, hc]
    · show (fallbackExtraction body "Interview at Acme Corp").status =
        ApplicationStatus.RECRUITER_SCREEN
      simp [fallbackExtraction]
  · intro emailText subject
    simp [fallbackExtraction]

/-- C8.  When neither company heuristic fires — the preposition regex does
not match and the dash/pipe split does not yield a final segment shorter
than 30 characters — and neither role heuristic fires — no labeled
`Role:`/`Position:`/`Opening:` field in the body and no common role keyword
in the subject — the fallback extraction returns the literal unknown
defaults. -/
theorem fallback_unknown_defaults (emailText subject : String)
    (hc : companyRegexMatch subject = none)
    (hsplit : ¬ ((splitOnSeps subject.data companySplitSeps).length > 1 ∧
        (jsTrimList ((splitOnSeps subject.data companySplitSeps).getLastD [])).length < 30))
    (hr : roleRegexMatch emailText = none)
    (hkw : (commonRoles.any (fun r => strContainsSub subject r)) = false) :
    fallbackExtraction emailText subject =
      { companyName := "Unknown Company", roleTitle := "Unknown Role",
        jobLink := some "", nextInterviewDate := none,
        status := ApplicationStatus.RECRUITER_SCREEN } := by
  have hcomp : fallbackCompany subject = "" := by
    rw [fallbackCompany, hc]
    by_cases hlen : (splitOnSeps subject.data companySplitSeps).length > 1
    · have h30 : ¬ (jsTrimList ((splitOnSeps subject.data companySplitSeps).getLastD [])).length < 30 :=
        fun h => hsplit ⟨hlen, h⟩
      rw [List.getLastD_eq_getLast?] at h30
      simp [hlen, h30]
    · simp [hlen]
  have hrole : fallbackRole emailText subject = "" := by
    rw [fallbackRole, hr]
    simp [hkw]
  simp [fallbackExtraction, hcomp, hrole]

/-- Witness for C8 on a subject and body that trigger none of the
heuristics. -/
theorem fallback_unknown_defaults_witness :
    fallbackExtraction "hi" "hello" =
      { companyName := "Unknown Company", roleTitle := "Unknown Role",
        jobLink := some "", nextInterviewDate := none,
        status := ApplicationStatus.RECRUITER_SCREEN } :=
  fallback_unknown_defaults "hi" "hello" (by decide) (by decide) (by decide) (by decide)

theorem length_filterMap_of_isSome {α β : Type} (f : α → Option β) (l : List α)
    (h : ∀ o ∈ l, (f o).isSome = true) : (l.filterMap f).length = l.length := by
  induction l with
  | nil => rfl
  | cons x xs ih =>
    cases hf : f x with
    | none =>
      have := h x (List.mem_cons_self x xs)
      rw [hf] at this
      exact absurd this (by simp)
    | some b =>
      simp only [List.filterMap_cons, hf, List.length_cons]
      rw [ih (fun o ho => h o (List.mem_cons_of_mem x ho))]

theorem fetchDetails_isSome_of_parses {accountId : String} {o : DetailOutcome}
    (h : ∃ d, o = DetailOutcome.okPayload d ∧ (parseGmailMessage d accountId).isSome = true) :
    (fetchDetails accountId o).isSome = true := by
  rcases h with ⟨d, rfl, hp⟩
  cases hm : parseGmailMessage d accountId with
  | none => rw [hm] at hp; exact absurd hp (by simp)
  | some m => simp [fetchDetails, fetchDetailAttempt, hm]

/-- C3.  Batch resilience of the detail-fetch stage: with one candidate whose
detail fetch throws and every other candidate fetching and parsing
successfully, the batch returns exactly `N - 1` messages; the per-task
`catch` makes every task — and hence the joined batch — total, so no
exception escapes. -/
theorem fetch_batch_resilience (accountId : String) (l₁ l₂ : List DetailOutcome)
    (h : ∀ o ∈ l₁ ++ l₂,
      ∃ d, o = DetailOutcome.okPayload d ∧ (parseGmailMessage d accountId).isSome = true) :
    (fetchGmailDetailBatch accountId (l₁ ++ DetailOutcome.throws :: l₂)).length =
      (l₁ ++ DetailOutcome.throws :: l₂).length - 1 := by
  have hthrow : fetchDetails accountId DetailOutcome.throws = none := rfl
  have h₁ : ∀ o ∈ l₁, (fetchDetails accountId o).isSome = true := fun o ho =>
    fetchDetails_isSome_of_parses (h o (List.mem_append_left _ ho))
  have h₂ : ∀ o ∈ l₂, (fetchDetails accountId o).isSome = true := fun o ho =>
    fetchDetails_isSome_of_parses (h o (List.mem_append_right _ ho))
  show (List.filterMap id
      ((l₁ ++ DetailOutcome.throws :: l₂).map (fetchDetails accountId))).length = _
  rw [List.filterMap_map, Function.id_comp, List.filterMap_append, List.filterMap_cons, hthrow]
  simp only [List.length_append, List.length_cons]
  rw [length_filterMap_of_isSome _ _ h₁, length_filterMap_of_isSome _ _ h₂]
  omega

/-- A concrete payload that parses successfully (used by witnesses). -/
def sampleData : GmailData :=
  { id := "w1"
    payload := { headers := [⟨"From", "Jane Doe <jane@x.com>"⟩, ⟨"Subject", "Hi"⟩], parts := [] }
    snippet := "snip"
    internalDate := "1000"
    labelIds := ["UNREAD"] }

/-- Witness for C3: two candidates, the second throws, the batch returns one
message. -/
theorem fetch_batch_resilience_witness :
    (fetchGmailDetailBatch "acc"
        ([DetailOutcome.okPayload sampleData] ++ DetailOutcome.throws :: [])).length =
      ([DetailOutcome.okPayload sampleData] ++
        DetailOutcome.throws :: ([] : List DetailOutcome)).length - 1 :=
  fetch_batch_resilience "acc" [DetailOutcome.okPayload sampleData] [] (by
    intro o ho
    simp only [List.append_nil, List.mem_singleton] at ho
    subst ho
    exact ⟨sampleData, rfl, by decide⟩)

theorem parseGmailMessage_fields {data : GmailData} {accountId : String} {m : InboundMessage}
    (h : parseGmailMessage data accountId = some m) :
    m.senderName =
        (if (parseSender (getHeader data.payload.headers "From")).1 = "" then "Unknown"
          else (parseSender (getHeader data.payload.headers "From")).1) ∧
      m.senderEmail = (parseSender (getHeader data.payload.headers "From")).2 ∧
      selectBody data = some m.fullBody := by
  simp only [parseGmailMessage] at h
  rcases hps : parseSender (getHeader data.payload.headers "From") with ⟨sn, se⟩
  rw [hps] at h
  cases hb : selectBody data with
  | none => simp [hb] at h
  | some body =>
    simp only [hb] at h
    cases hpi : jsParseInt data.internalDate with
    | none => simp [hpi] at h
    | some ms =>
      simp only [hpi] at h
      by_cases hr : isoRangeOk ms = true
      · rw [if_pos hr] at h
        injection h with h
        refine ⟨?_, ?_, ?_⟩ <;> simp [← h, hb]
      · rw [if_neg hr] at h; exact absurd h (by simp)

theorem fromRegexMatch_eq_none {s : String} (h : s.data.contains '<' = false) :
    fromRegexMatch s = none := by
  have hnot : '<' ∉ s.data := fun hm => by
    have hc : s.data.contains '<' = true := List.elem_iff.mpr hm
    rw [h] at hc
    exact Bool.false_ne_true hc
  unfold fromRegexMatch
  cases hg : ((List.range s.data.length).filter (fun i => s.data.getD i ' ' = '>')).getLast? with
  | none => simp only [hg]
  | some lastGt =>
    have hglt : lastGt ∈ (List.range s.data.length).filter
        (fun i => s.data.getD i ' ' = '>') := List.mem_of_mem_getLast? hg
    have hlen : lastGt < s.data.length := List.mem_range.mp (List.mem_filter.mp hglt).1
    have hfilter : (List.range lastGt).filter (fun i => s.data.getD i ' ' = '<') = [] := by
      rw [List.filter_eq_nil_iff]
      intro i hi hdec
      have hieq : s.data.getD i ' ' = '<' := of_decide_eq_true hdec
      have hilen : i < s.data.length := lt_trans (List.mem_range.mp hi) hlen
      have hmem : s.data.getD i ' ' ∈ s.data := by
        rw [List.getD_eq_getElem?_getD, List.getElem?_eq_getElem hilen]
        exact List.getElem_mem hilen
      rw [hieq] at hmem
      exact hnot hmem
    simp only [hg, hfilter, List.getLast?_nil]

/-- C6.  Sender-parsing round trip: a `From` header of the form
`Jane Doe <jane@x.com>` is split into display name and address, and a
non-empty bare value without an angle bracket is used verbatim for both
fields of the normalized message. -/
theorem sender_parsing_round_trip (data : GmailData) (accountId : String) :
    (getHeader data.payload.headers "From" = "Jane Doe <jane@x.com>" →
        ∀ m, parseGmailMessage data accountId = some m →
          m.senderName = "Jane Doe" ∧ m.senderEmail = "jane@x.com") ∧
      ∀ raw, getHeader data.payload.headers "From" = raw → raw ≠ "" →
        raw.data.contains '<' = false →
        ∀ m, parseGmailMessage data accountId = some m →
          m.senderName = raw ∧ m.senderEmail = raw := by
  constructor
  · intro hfrom m hm
    obtain ⟨hn, he, -⟩ := parseGmailMessage_fields hm
    rw [hfrom] at hn he
    have hps : parseSender "Jane Doe <jane@x.com>" = ("Jane Doe", "jane@x.com") := by decide
    rw [hps] at hn he
    exact ⟨by simpa using hn, he⟩
  · intro raw hfrom hne hlt m hm
    obtain ⟨hn, he, -⟩ := parseGmailMessage_fields hm
    rw [hfrom] at hn he
    have hps : parseSender raw = (raw, raw) := by
      unfold parseSender
      rw [fromRegexMatch_eq_none hlt]
    rw [hps] at hn he
    refine ⟨?_, he⟩
    rw [hn, if_neg hne]

/-- A payload whose `From` header is a bare address (used by witnesses). -/
def bareFromData : GmailData :=
  { id := "w2"
    payload := { headers := [⟨"From", "jane@x.com"⟩, ⟨"Subject", "Hi"⟩], parts := [] }
    snippet := "snip"
    internalDate := "1000"
    labelIds := [] }

/-- Witness for C6 on a display-name header and on a bare-address header. -/
theorem sender_parsing_round_trip_witness :
    (∃ m, parseGmailMessage sampleData "acc" = some m ∧
        m.senderName = "Jane Doe" ∧ m.senderEmail = "jane@x.com") ∧
      ∃ m, parseGmailMessage bareFromData "acc" = some m ∧
        m.senderName = "jane@x.com" ∧ m.senderEmail = "jane@x.com" := by
  constructor
  · cases hm : parseGmailMessage sampleData "acc" with
    | none => exact absurd hm (by decide)
    | some m =>
      exact ⟨m, rfl, (sender_parsing_round_trip sampleData "acc").1 (by decide) m hm⟩
  · cases hm : parseGmailMessage bareFromData "acc" with
    | none => exact absurd hm (by decide)
    | some m =>
      exact ⟨m, rfl,
        (sender_parsing_round_trip bareFromData "acc").2 "jane@x.com" (by decide) (by decide)
          (by decide) m hm⟩

/-- C10.  A missing (or empty-valued) `From` header yields the literal
`Unknown` sender name and the empty sender email, not the raw header text. -/
theorem parse_missing_from_defaults (data : GmailData) (accountId : String)
    (h : getHeader data.payload.headers "From" = "") :
    ∀ m, parseGmailMessage data accountId = some m →
      m.senderName = "Unknown" ∧ m.senderEmail = "" := by
  intro m hm
  obtain ⟨hn, he, -⟩ := parseGmailMessage_fields hm
  rw [h] at hn he
  have hps : parseSender "" = ("", "") := by decide
  rw [hps] at hn he
  exact ⟨by simpa using hn, he⟩

/-- A payload with no `From` header at all (used by witnesses). -/
def noFromData : GmailData :=
  { id := "w6"
    payload := { headers := [⟨"Subject", "Hi"⟩], parts := [] }
    snippet := "snip"
    internalDate := "1000"
    labelIds := [] }

/-- Witness for C10 on a payload without a `From` header. -/
theorem parse_missing_from_defaults_witness :
    ∃ m, parseGmailMessage noFromData "acc" = some m ∧
      m.senderName = "Unknown" ∧ m.senderEmail = "" := by
  cases hm : parseGmailMessage noFromData "acc" with
  | none => exact absurd hm (by decide)
  | some m =>
    exact ⟨m, rfl, parse_missing_from_defaults noFromData "acc" (by decide) m hm⟩

/-- C5.  Body-part precedence: when the part tree holds both a `text/html`
part and a `text/plain` part and the HTML part carries body data — a
non-empty data string, since the source's `bodyPart.body.data` guard is
falsy on the empty string — that decodes, the normalized `fullBody` is the
decoded HTML content; when the tree holds neither part, `fullBody` is the
provider snippet. -/
theorem body_part_precedence (data : GmailData) (accountId : String) :
    (∀ (hp tp : GmailPart) (d dec : String),
        findPart data.payload.parts "text/html" = some hp →
        findPart data.payload.parts "text/plain" = some tp →
        hp.bodyData = some d → d ≠ "" → b64UrlDecode d = some dec →
        ∀ m, parseGmailMessage data accountId = some m → m.fullBody = dec) ∧
      (findPart data.payload.parts "text/html" = none →
        findPart data.payload.parts "text/plain" = none →
        ∀ m, parseGmailMessage data accountId = some m → m.fullBody = data.snippet) := by
  constructor
  · intro hp tp d dec hhp htp hd hne hdec m hm
    obtain ⟨-, -, hbody⟩ := parseGmailMessage_fields hm
    have hsel : selectBody data = some dec := by
      simp only [selectBody, hhp, htp, Option.some_orElse, hd, if_neg hne, hdec]
    rw [hsel] at hbody
    exact (Option.some_inj.mp hbody).symm
  · intro hh ht m hm
    obtain ⟨-, -, hbody⟩ := parseGmailMessage_fields hm
    have hsel : selectBody data = some data.snippet := by
      simp only [selectBody, hh, ht, Option.none_orElse]
    rw [hsel] at hbody
    exact (Option.some_inj.mp hbody).symm

/-- A payload holding both an HTML part (data decoding to `<b>`) and a
plain-text part (used by witnesses). -/
def bothPartsData : GmailData :=
  { id := "w5"
    payload :=
      { headers := [⟨"From", "a@b.c"⟩]
        parts := [GmailPart.node "text/plain" (some "YQ==") [],
          GmailPart.node "text/html" (some "PGI-") []] }
    snippet := "snipA"
    internalDate := "5"
    labelIds := [] }

/-- Witness for C5: HTML content wins over the plain part; with no parts the
snippet is used. -/
theorem body_part_precedence_witness :
    (∃ m, parseGmailMessage bothPartsData "acc" = some m ∧ m.fullBody = "<b>") ∧
      ∃ m, parseGmailMessage bareFromData "acc" = some m ∧ m.fullBody = "snip" := by
  constructor
  · cases hm : parseGmailMessage bothPartsData "acc" with
    | none => exact absurd hm (by decide)
    | some m =>
      exact ⟨m, rfl,
        (body_part_precedence bothPartsData "acc").1
          (GmailPart.node "text/html" (some "PGI-") [])
          (GmailPart.node "text/plain" (some "YQ==") []) "PGI-" "<b>"
          rfl rfl rfl (by decide) (by decide) m hm⟩
  · cases hm : parseGmailMessage bareFromData "acc" with
    | none => exact absurd hm (by decide)
    | some m =>
      exact ⟨m, rfl, (body_part_precedence bareFromData "acc").2 rfl rfl m hm⟩
